import Mathlib

/-!
Verification development for the Crypto-Tool ingestion/completeness core.

The definitions below are shallow embeddings of the Python source:
  - app/services/ingestion/gap_detector.py   (detect_gaps)
  - app/services/ingestion/candles_ingestion.py (upsert_candles, ingest_range)
  - app/db/models.py + app/db/invariants.py  (schema key, verify_candle_invariants)
  - app/services/completeness.py             (generate_gap_report, ensure_no_gaps)
  - app/scripts/backfill.py                  (execute_backfill)
  - app/jobs/scheduler.py                    (_acquire_lock / _release_lock)

Timestamps are modelled as epoch seconds (Int); the numeric OHLCV payload
carries no arithmetic in this core, so its float fields are modelled by Int.
Python exceptions are modelled by an explicit error type (Except / Option).
-/

namespace CryptoTool

/- ----------------------------------------------------------------
   Gap detector: app/services/ingestion/gap_detector.py, detect_gaps
   ---------------------------------------------------------------- -/

/-- Embedding of the Python expression sorted(set(open_times)): the strictly
ascending list of the distinct elements of the input list. -/
def sortDedup (l : List Int) : List Int :=
  List.insertionSort (fun a c => a ≤ c) l.dedup

/-- Embedding of the while-loop of detect_gaps.  T is the sorted/deduplicated
list (the reassigned open_times), n the length of the ORIGINAL list (the
Python n is computed before the reassignment), b the end_epoch.  A state where
the code would index past the end of T (possible when the input had
duplicates, since then n exceeds the deduplicated length) returns none,
modelling the Python IndexError.  The Python gap_end = min(next_existing, end)
is written out by cases on next_existing < end. -/
def detectLoop (T : List Int) (n : Nat) (step b : Int) (expected : Int) (i : Nat)
    (acc : List (Int × Int)) : Option (List (Int × Int)) :=
  if expected < b then
    if i < n then
      match hT : T[i]? with
      | none => none
      | some t =>
        if he : t = expected then
          detectLoop T n step b (expected + step) (i + 1) acc
        else if hb : t < b then
          detectLoop T n step b t i (acc ++ [(expected, t)])
        else
          some (acc ++ [(expected, b)])
    else
      some (acc ++ [(expected, b)])
  else
    some acc
termination_by 2 * (T.length - i) + (if T[i]? = some expected then 0 else 1)
decreasing_by
  · rcases List.getElem?_eq_some_iff.mp hT with ⟨hi, -⟩
    have h1 : (if T[i]? = some expected then 0 else 1) = 0 := by
      rw [if_pos (by rw [hT, he])]
    have h2 : (if T[i + 1]? = some (expected + step) then 0 else 1) ≤ 1 := by
      split <;> omega
    omega
  · have h1 : (if T[i]? = some expected then 0 else 1) = 1 := by
      rw [if_neg]; rw [hT]; simpa using he
    have h2 : (if T[i]? = some t then 0 else 1) = 0 := by
      rw [if_pos hT]
    omega

/-- Helper for the adjacent-gap merging loop at the end of detect_gaps:
cur plays the role of merged[-1] of the Python fold, finished gaps are
emitted to the left. -/
def mergeInto (cur : Int × Int) : List (Int × Int) → List (Int × Int)
  | [] => [cur]
  | (gs, ge) :: rest =>
    if gs ≤ cur.2 then mergeInto (cur.1, max cur.2 ge) rest
    else cur :: mergeInto (gs, ge) rest

/-- Embedding of the adjacent-gap merging loop at the end of detect_gaps. -/
def mergeGaps : List (Int × Int) → List (Int × Int)
  | [] => []
  | g :: rest => mergeInto g rest

/-- Embedding of detect_gaps(open_times, step_seconds, start_epoch, end_epoch).
Returns none when the Python code would raise (IndexError on duplicate-bearing
input). -/
def detect_gaps (open_times : List Int) (step_seconds start_epoch end_epoch : Int) :
    Option (List (Int × Int)) :=
  if end_epoch ≤ start_epoch then some []
  else if open_times = [] then some [(start_epoch, end_epoch)]
  else
    (detectLoop (sortDedup open_times) open_times.length step_seconds end_epoch
        start_epoch 0 []).map mergeGaps

/-- Boundary grid of a range: the interval-aligned points a, a+step, ... lying
in [a, b).  This is the spec-side notion of the set of interval boundaries of
a range (3. DATA MODEL / 4.2), used to state the gap-correctness claims. -/
def rangeBoundaries (step a b : Int) : List Int :=
  if 0 < step then
    (List.range ((b - a + step - 1) / step).toNat).map (fun k : Nat => a + (k : Int) * step)
  else []

/-- Accumulator-passing walk used by the spec-side gap detector model: the
first component carries the start of the currently open gap, if any; a gap
ends at the next present boundary, or at range_end when the boundaries run
out. -/
def specWalkAux (S : List Int) (b : Int) : Option Int → List Int → List (Int × Int)
  | none, [] => []
  | some gs, [] => [(gs, b)]
  | none, t :: rest =>
    if t ∈ S then specWalkAux S b none rest else specWalkAux S b (some t) rest
  | some gs, t :: rest =>
    if t ∈ S then (gs, t) :: specWalkAux S b none rest
    else specWalkAux S b (some gs) rest

/-- Modelled from the spec (4.2 GapDetector): floor range_start to the nearest
interval boundary, walk boundaries from the floored start to range_end in
step_seconds increments, extend a gap over each maximal run of absent
boundaries until the next present boundary or range_end.  This definition
follows the spec words and exists to compare with the detect_gaps
implementation, which does not floor range_start. -/
def detect_gaps_floored (S : List Int) (step a b : Int) : List (Int × Int) :=
  specWalkAux S b none (rangeBoundaries step (a - a % step) b)

/- ----------------------------------------------------------------
   Candle store: app/db/models.py (schema), app/db/invariants.py,
   app/services/ingestion/candles_ingestion.py (upsert, ingest_range)
   ---------------------------------------------------------------- -/

/-- Stored candle row (candles table of app/db/models.py).  ts is the candle
open time as epoch seconds; the Float OHLCV payload carries no arithmetic in
this core and is modelled by Int. -/
structure CandleRow where
  source : String
  coin : String
  interval : String
  ts : Int
  open_ : Int
  high : Int
  low : Int
  close : Int
  volume : Int
deriving DecidableEq, Repr

/-- The candle store: the rows of the candles table in insertion order. -/
abbrev Store := List CandleRow

/-- One gap entry of a completeness report (completeness.py GapDetail), with
times as epoch seconds; end_ renders the Python field end. -/
structure GapDetail where
  start : Int
  end_ : Int
  missing_candles : Int
deriving DecidableEq, Repr

/-- Completeness report (completeness.py GapReport). -/
structure GapReport where
  coin : String
  interval : String
  start_ts : Int
  end_ts : Int
  gaps : List GapDetail
deriving DecidableEq, Repr

/-- Embedding of the gap_count property of GapReport. -/
def GapReport.gap_count (r : GapReport) : Nat := r.gaps.length

/-- Embedding of the gaps_found property of GapReport. -/
def GapReport.gaps_found (r : GapReport) : Bool := !r.gaps.isEmpty

/-- Python exception values surfaced by the embedded functions. -/
inductive Err where
  | operationalError
  | integrityError
  | indexError
  | valueError
  | typeError
  | attributeError
  | assertionError (dups : List (String × String × Int))
      (nonmono : List (String × String × Int))
  | dataIncomplete (report : GapReport)
deriving DecidableEq, Repr

deriving instance DecidableEq for Except

/-- Columns of the unique constraint of the candles table
(models.py, uq_candles_coin_interval_ts). -/
def candlesUniqueConstraint : List String := ["coin", "interval", "ts"]

/-- Columns of the conflict target named by upsert_candles
(candles_ingestion.py, index_elements of on_conflict_do_update). -/
def upsertIndexElements : List String := ["source", "coin", "interval", "ts"]

/-- SQLite accepts an ON CONFLICT (cols) DO UPDATE clause only when cols are
exactly the columns of a unique index of the table; the candles table has
only the unique constraint (coin, interval, ts) besides its integer primary
key, so acceptance is the set equality of the two column lists. -/
def onConflictTargetAccepted : Bool :=
  decide (upsertIndexElements.toFinset = candlesUniqueConstraint.toFinset)

/-- Equality on the conflict-target columns (source, coin, interval, ts). -/
def sameFullKey (q v : CandleRow) : Bool :=
  q.source == v.source && q.coin == v.coin && q.interval == v.interval && q.ts == v.ts

/-- Equality on the columns of the table's unique constraint
(coin, interval, ts). -/
def sameSchemaKey (q v : CandleRow) : Bool :=
  q.coin == v.coin && q.interval == v.interval && q.ts == v.ts

/-- Semantics of one upserted row had the conflict clause been accepted: a
conflict-target match overwrites the OHLCV fields; otherwise the row is
inserted, subject to the table's unique constraint. -/
def execUpsertRow (st : Store) (v : CandleRow) : Except Err Store :=
  if st.any (fun q => sameFullKey q v) then
    .ok (st.map (fun q => if sameFullKey q v then
      { q with open_ := v.open_, high := v.high, low := v.low,
               close := v.close, volume := v.volume } else q))
  else if st.any (fun q => sameSchemaKey q v) then
    .error .integrityError
  else
    .ok (st ++ [v])

/-- Row-by-row execution of the multi-row upsert statement. -/
def execUpsertRows (st : Store) : List CandleRow → Except Err Store
  | [] => .ok st
  | v :: vs =>
    match execUpsertRow st v with
    | .error e => .error e
    | .ok st' => execUpsertRows st' vs

/-- One element of the rows list handed to upsert_candles: the dict built by
get_candles plus the metadata attached by the ingestion entrypoints.  The
float(...) conversions are identity in this model; r.get("source", "local")
and r.get("volume", 0.0) or 0.0 are modelled by optional fields. -/
structure IngestRow where
  source : Option String
  coin : String
  interval : String
  timestamp : Int
  open_ : Int
  high : Int
  low : Int
  close : Int
  volume : Option Int
deriving DecidableEq, Repr

/-- Embedding of the values-row construction inside upsert_candles. -/
def toValueRow (r : IngestRow) : CandleRow :=
  { source := r.source.getD "local", coin := r.coin, interval := r.interval,
    ts := r.timestamp, open_ := r.open_, high := r.high, low := r.low,
    close := r.close, volume := r.volume.getD 0 }

/-- Embedding of upsert_candles(session, rows) from candles_ingestion.py
against the schema of models.py: the empty-rows early return yields 0; for
nonempty rows the INSERT ... ON CONFLICT (source, coin, interval, ts) DO
UPDATE statement is executed, but its conflict target matches no unique
index of the candles table, so SQLite rejects it (OperationalError); had it
been accepted, the statement would upsert the rows and the function would
return len(values). -/
def upsert_candles (st : Store) (rows : List IngestRow) : Except Err (Int × Store) :=
  if rows.isEmpty then .ok (0, st)
  else
    let values := rows.map toValueRow
    if onConflictTargetAccepted then
      match execUpsertRows st values with
      | .error e => .error e
      | .ok st' => .ok ((values.length : Int), st')
    else .error .operationalError

/-- Embedding of a raw ORM insert (session.add + commit) of a single candle
row, bypassing the upsert path: the table's unique constraint on
(coin, interval, ts) makes a duplicate-key insert fail with IntegrityError
(as exercised by tests/db/test_invariants.py). -/
def insert_raw (st : Store) (r : CandleRow) : Except Err Store :=
  if st.any (fun q => sameSchemaKey q r) then .error .integrityError
  else .ok (st ++ [r])

/-- Embedding of ingest_range(session, coin, interval, start_ts, end_ts): pull
candles from the snapshot-derived source starting at start_ts, filter them to
[start_ts, end_ts), attach coin/interval/source metadata, and upsert.  The
get_candles collaborator is a function argument; the session commit has no
further observable effect in this model. -/
def ingest_range (getCandles : String → String → Int → List IngestRow)
    (st : Store) (coin interval : String) (start_ts end_ts : Int) :
    Except Err (Int × Store) :=
  let candles := (getCandles coin interval start_ts).filter
    (fun c => decide (start_ts ≤ c.timestamp) && decide (c.timestamp < end_ts))
  let candles := candles.map (fun c =>
    { c with coin := coin, interval := interval, source := some "local" })
  upsert_candles st candles

/- ----------------------------------------------------------------
   Store invariants: app/db/invariants.py, verify_candle_invariants
   ---------------------------------------------------------------- -/

/-- Embedding of _DUPLICATE_CANDLES_SQL: the (coin, interval, ts) groups of
the candles table holding more than one row. -/
def duplicateFindings (st : Store) : List (String × String × Int) :=
  ((st.map (fun r => (r.coin, r.interval, r.ts))).dedup).filter
    (fun k => 1 < st.countP (fun r => (r.coin, r.interval, r.ts) == k))

/-- Embedding of _NON_MONOTONIC_SQL: within each (coin, interval) partition,
order rows by ts, lag, and keep the pairs with ts below the predecessor. -/
def nonMonotonicFindings (st : Store) : List (String × String × Int) :=
  ((st.map (fun r => (r.coin, r.interval))).dedup).flatMap
    (fun p =>
      let ts := List.insertionSort (fun x y => x ≤ y)
        ((st.filter (fun r => (r.coin, r.interval) == p)).map (fun r => r.ts))
      ((ts.zip (ts.drop 1)).filter (fun q => q.2 < q.1)).map
        (fun q => (p.1, p.2, q.2)))

/-- Embedding of verify_candle_invariants(session, strict): collect the
duplicate and non-monotonic findings; in strict mode raise AssertionError
when any finding exists, else return the findings. -/
def verify_candle_invariants (st : Store) (strict : Bool) :
    Except Err (List (String × String × Int) × List (String × String × Int)) :=
  let dups := duplicateFindings st
  let nonmono := nonMonotonicFindings st
  if strict && (!dups.isEmpty || !nonmono.isEmpty) then
    .error (.assertionError dups nonmono)
  else
    .ok (dups, nonmono)

/- ----------------------------------------------------------------
   Completeness: app/services/completeness.py and app/utils/intervals.py
   ---------------------------------------------------------------- -/

/-- Embedding of INTERVAL_SECONDS from app/utils/intervals.py. -/
def INTERVAL_SECONDS : List (String × Int) :=
  [("1m", 60), ("3m", 180), ("5m", 300), ("15m", 900), ("30m", 1800),
   ("1h", 3600), ("2h", 7200), ("4h", 14400), ("1d", 86400), ("1w", 604800)]

/-- Embedding of get_interval_seconds: unknown intervals raise ValueError. -/
def get_interval_seconds (interval : String) : Except Err Int :=
  match INTERVAL_SECONDS.lookup interval with
  | some s => .ok s
  | none => .error .valueError

/-- Modelled from the spec: get_existing_candle_times, the CandleStore read
used by generate_gap_report, is imported by completeness.py but absent from
src (only the sibling query get_existing_open_times of gap_detector.py is
present).  Per the spec (4.1: the query read path; 4.3: reads via
CandleStore) it returns the stored open times of (coin, interval) within
[start, end), ordered ascending, exactly like that sibling SQL query. -/
def get_existing_candle_times (st : Store) (coin interval : String)
    (a b : Int) : List Int :=
  List.insertionSort (fun x y => x ≤ y)
    ((st.filter (fun r =>
      r.coin == coin && r.interval == interval &&
        decide (a ≤ r.ts) && decide (r.ts < b))).map (fun r => r.ts))

/-- The names gap_detector.py defines at module level. -/
def gap_detector_module_names : List String :=
  ["_to_epoch_seconds", "get_existing_open_times", "detect_gaps",
   "step_for_interval"]

/-- The names completeness.py pulls from gap_detector (line 9 of
completeness.py). -/
def completeness_gap_detector_imports : List String :=
  ["get_existing_candle_times", "detect_gaps"]

/-- Whether the from-import of completeness.py resolves against
gap_detector.py: it does not (get_existing_candle_times is absent), so
loading completeness.py raises ImportError before any of its functions
can run.  The definitions below model the functions of completeness.py as
they would execute with only that missing read resolved per the spec. -/
def completeness_import_ok : Bool :=
  completeness_gap_detector_imports.all
    (fun f => gap_detector_module_names.contains f)

/-- The detect_gaps while-loop as entered from the call at line 107 of
completeness.py: expected and end_epoch are datetimes, step_seconds is the
interval string, and the deduplicated open_times are ints.  The condition
`open_times[i] == expected` compares an int against a datetime, which is
False in Python (never an error), so the equality branch is never taken;
the gap branch then computes min(open_times[i], end_epoch) whenever i < n —
a TypeError between int and datetime — and min(end_epoch, end_epoch) =
end_epoch otherwise, after which expected = end_epoch ends the walk.  An
out-of-range open_times[i] inside the condition raises IndexError (possible
when the input held duplicates, as n predates the dedup). -/
def detectLoopDyn (T : List Int) (n : Nat) (b : Int) (expected : Int) (i : Nat)
    (acc : List (Int × Int)) : Except Err (List (Int × Int)) :=
  if h : expected < b then
    if i < n then
      match T[i]? with
      | none => .error .indexError
      | some _ => .error .typeError
    else
      detectLoopDyn T n b b i (acc ++ [(expected, b)])
  else .ok acc
termination_by (if expected < b then 1 else 0)
decreasing_by simp [h, lt_self_iff_false]

/-- detect_gaps(existing, interval, start_ts, end_ts) as the call of
completeness.py executes it: the string step and datetime bounds leave the
two early returns well-typed (datetime-to-datetime comparisons), so a
degenerate range yields [] and an empty list yields the single tuple
(start, end); the walk is detectLoopDyn and the merge pass runs unchanged
on whatever tuples it accumulated. -/
def detect_gaps_str_step (open_times : List Int) (step_seconds : String)
    (start_epoch end_epoch : Int) : Except Err (List (Int × Int)) :=
  if end_epoch ≤ start_epoch then .ok []
  else if open_times = [] then .ok [(start_epoch, end_epoch)]
  else
    (detectLoopDyn (sortDedup open_times) open_times.length end_epoch
        start_epoch 0 []).map mergeGaps

/-- Embedding of generate_gap_report (completeness.py lines 94-126) as
staged: resolve the interval step (line 102, ValueError on unknown
intervals), read the existing times, then call
detect_gaps(existing, interval, start_ts, end_ts) — line 107 hands the
interval STRING to the step_seconds parameter and the datetime bounds to
the epoch parameters.  Whatever gaps come back are plain (start, end)
tuples, so the detail loop's gap.end attribute access (line 111) raises
AttributeError on the first gap; only an empty gap list reaches the final
report, whose details list is then empty. -/
def generate_gap_report (st : Store) (coin interval : String)
    (start_ts end_ts : Int) : Except Err GapReport :=
  match get_interval_seconds interval with
  | .error e => .error e
  | .ok _ =>
    match detect_gaps_str_step
        (get_existing_candle_times st coin interval start_ts end_ts) interval
        start_ts end_ts with
    | .error e => .error e
    | .ok [] =>
      .ok { coin := coin, interval := interval, start_ts := start_ts,
            end_ts := end_ts, gaps := [] }
    | .ok (_ :: _) => .error .attributeError

/-- Embedding of ensure_no_gaps: generate the report and raise DataIncomplete
carrying it when gaps were found, else return it. -/
def ensure_no_gaps (st : Store) (coin interval : String)
    (start_ts end_ts : Int) : Except Err GapReport :=
  match generate_gap_report st coin interval start_ts end_ts with
  | .error e => .error e
  | .ok report =>
    if report.gaps.isEmpty then .ok report else .error (.dataIncomplete report)

/-- State-threading form of ensure_no_gaps: the Python function only issues
SELECT statements through its session, so the store paired with the outcome
is the store it was given. -/
def ensure_no_gaps_session (st : Store) (coin interval : String)
    (start_ts end_ts : Int) : Except Err GapReport × Store :=
  (ensure_no_gaps st coin interval start_ts end_ts, st)

/- ----------------------------------------------------------------
   Backfill executor: app/scripts/backfill.py, execute_backfill
   ---------------------------------------------------------------- -/

/-- Caps-hit flags of a BackfillResult. -/
structure CapsHit where
  window_limit : Bool
  gap_limit : Bool
  candle_limit : Bool
deriving DecidableEq, Repr

/-- Embedding of BackfillResult (backfill.py); times are epoch seconds and
the remaining-gaps payload is kept as a GapReport rather than its dict
rendering; error keeps the caught exception value. -/
structure BackfillResult where
  coin : String
  interval : String
  start_ts : Int
  end_ts : Int
  gaps_fixed : Nat
  candles_added : Int
  completed : Bool
  remaining_gaps : Option GapReport
  caps_hit : CapsHit
  error : Option Err
deriving DecidableEq, Repr

/-- BACKFILL_MAX_DAYS default of 30 days, in seconds. -/
def MAX_LOOKBACK_SECONDS : Int := 30 * 86400

/-- Signature of the ingestion collaborator of execute_backfill: coin,
interval, window and store in; inserted count and updated store out. -/
abbrev IngestFn := String → String → Int → Int → Store → Except Err (Int × Store)

/-- Embedding of _fill_gap_segment: run the ingestion collaborator on the gap
window, then re-verify the store invariants in strict mode; an AssertionError
from that verification propagates to the caller uncaught. -/
def fill_gap_segment (ingestFn : IngestFn) (coin interval : String)
    (gap_start gap_end : Int) (st : Store) : Except Err (Int × Store) :=
  match ingestFn coin interval gap_start gap_end st with
  | .error e => .error e
  | .ok (inserted, st') =>
    match verify_candle_invariants st' true with
    | .error e => .error e
    | .ok _ => .ok (inserted, st')

/-- State leaving the while-loop of execute_backfill. -/
structure LoopOut where
  st : Store
  current : GapReport
  gaps_fixed : Nat
  candles_added : Int
  iterations : Nat
deriving DecidableEq, Repr

/-- Embedding of the while-loop of execute_backfill; the trailing Nat counts
collaborator invocations (fill attempts) and changes no control flow.  The
redundant remaining-capacity break of the source is kept. -/
def backfillLoop (ingestFn : IngestFn) (coin interval : String)
    (start_ts end_ts : Int) (max_gaps : Nat) (max_candles : Int) :
    Store → GapReport → Nat → Int → Nat → Nat → Except Err LoopOut × Nat
  | st, current, gapsFixed, candlesAdded, iterations, attempts =>
    match current.gaps with
    | [] => (.ok ⟨st, current, gapsFixed, candlesAdded, iterations⟩, attempts)
    | gap :: _ =>
      if hit : iterations < max_gaps ∧ candlesAdded < max_candles then
        if max_candles - candlesAdded ≤ 0 then
          (.ok ⟨st, current, gapsFixed, candlesAdded, iterations⟩, attempts)
        else
          match fill_gap_segment ingestFn coin interval gap.start gap.end_ st with
          | .error e => (.error e, attempts + 1)
          | .ok (inserted, st') =>
            if inserted = 0 then
              (.ok ⟨st', current, gapsFixed, candlesAdded, iterations⟩, attempts + 1)
            else
              match generate_gap_report st' coin interval gap.start gap.end_ with
              | .error e => (.error e, attempts + 1)
              | .ok segReport =>
                let gapsFixed' :=
                  if segReport.gaps.isEmpty then gapsFixed + 1 else gapsFixed
                match generate_gap_report st' coin interval start_ts end_ts with
                | .error e => (.error e, attempts + 1)
                | .ok updated =>
                  if current.gaps.length ≤ updated.gaps.length then
                    (.ok ⟨st', updated, gapsFixed', candlesAdded + inserted,
                      iterations + 1⟩, attempts + 1)
                  else
                    backfillLoop ingestFn coin interval start_ts end_ts max_gaps
                      max_candles st' updated gapsFixed' (candlesAdded + inserted)
                      (iterations + 1) (attempts + 1)
      else
        (.ok ⟨st, current, gapsFixed, candlesAdded, iterations⟩, attempts)
termination_by st current gapsFixed candlesAdded iterations attempts =>
  max_gaps - iterations
decreasing_by
  have h := hit.1
  omega

/-- Embedding of execute_backfill (backfill.py) over the instrumented loop;
the second component is the total number of fill attempts.  The AssertionError
of the standalone post-loop verification and the DataIncompleteError of the
final ensure_no_gaps are caught and converted into results, as in the source;
all other exceptions (including an AssertionError raised inside
_fill_gap_segment during the loop) propagate as errors. -/
def execute_backfill_instr (ingestFn : IngestFn) (coin interval : String)
    (start0 end0 : Int) (max_gaps : Nat) (max_candles : Int) (st : Store) :
    Except Err (BackfillResult × Store) × Nat :=
  let start_ts := if MAX_LOOKBACK_SECONDS < end0 - start0
    then end0 - MAX_LOOKBACK_SECONDS else start0
  let window_limit := decide (MAX_LOOKBACK_SECONDS < end0 - start0)
  match generate_gap_report st coin interval start_ts end0 with
  | .error e => (.error e, 0)
  | .ok report =>
    if report.gaps.isEmpty then
      (.ok ({ coin := coin, interval := interval, start_ts := start_ts,
              end_ts := end0, gaps_fixed := 0, candles_added := 0,
              completed := true, remaining_gaps := none,
              caps_hit := ⟨window_limit, false, false⟩, error := none }, st), 0)
    else
      match backfillLoop ingestFn coin interval start_ts end0 max_gaps
          max_candles st report 0 0 0 0 with
      | (.error e, att) => (.error e, att)
      | (.ok out, att) =>
        let caps : CapsHit :=
          ⟨window_limit,
            !out.current.gaps.isEmpty && decide (max_gaps ≤ out.iterations),
            !out.current.gaps.isEmpty && decide (max_candles ≤ out.candles_added)⟩
        match verify_candle_invariants out.st true with
        | .error e =>
          (.ok ({ coin := coin, interval := interval, start_ts := start_ts,
                  end_ts := end0, gaps_fixed := out.gaps_fixed,
                  candles_added := out.candles_added, completed := false,
                  remaining_gaps := some out.current, caps_hit := caps,
                  error := some e }, out.st), att)
        | .ok _ =>
          match ensure_no_gaps out.st coin interval start_ts end0 with
          | .ok _ =>
            (.ok ({ coin := coin, interval := interval, start_ts := start_ts,
                    end_ts := end0, gaps_fixed := out.gaps_fixed,
                    candles_added := out.candles_added, completed := true,
                    remaining_gaps := none, caps_hit := caps,
                    error := none }, out.st), att)
          | .error (.dataIncomplete rep) =>
            (.ok ({ coin := coin, interval := interval, start_ts := start_ts,
                    end_ts := end0, gaps_fixed := out.gaps_fixed,
                    candles_added := out.candles_added, completed := false,
                    remaining_gaps := some rep, caps_hit := caps,
                    error := none }, out.st), att)
          | .error e => (.error e, att)

/-- Whether the embedded execute_backfill outcome is a returned
BackfillResult rather than a propagated exception. -/
def returnsResult (x : Except Err (BackfillResult × Store)) : Bool :=
  match x with
  | .ok _ => true
  | .error _ => false

/- ----------------------------------------------------------------
   Exclusivity lock: app/jobs/scheduler.py, _acquire_lock / _release_lock
   ---------------------------------------------------------------- -/

/-- Content of the scheduler lock file (the json payload written by
start_scheduler; only the pid field is read back). -/
structure LockPayload where
  pid : Int
  started_at : Int
deriving DecidableEq, Repr

/-- The lock resource: the OS path holds at most one lock file. -/
structure LockFS where
  lock : Option LockPayload
deriving DecidableEq, Repr

/-- Embedding of _pid_alive: non-positive pids are never alive; otherwise the
os.kill(pid, 0) probe is the supplied aliveness oracle. -/
def pid_alive (alive : Int → Bool) (pid : Int) : Bool :=
  if pid ≤ 0 then false else alive pid

/-- Embedding of _read_lock_pid for a lock file written by this code: the
json parse succeeds and yields the recorded pid. -/
def read_lock_pid (fs : LockFS) : Option Int := fs.lock.map (fun p => p.pid)

/-- Embedding of _acquire_lock: atomic create-exclusive; on FileExistsError
read the owner pid and fail if it is alive, otherwise remove the stale
resource and retry (the retry re-runs the whole acquisition, which then hits
the create branch since the resource was removed). -/
def acquire_lock (alive : Int → Bool) (payload : LockPayload) (fs : LockFS) :
    Bool × LockFS :=
  match h : fs.lock with
  | none => (true, ⟨some payload⟩)
  | some p =>
    if pid_alive alive p.pid then (false, fs)
    else acquire_lock alive payload ⟨none⟩
termination_by if fs.lock.isSome then 1 else 0
decreasing_by simp [h]

/-- Embedding of _release_lock: os.remove with every exception swallowed, so
the resource is gone afterwards and a missing resource is not an error. -/
def release_lock (fs : LockFS) : LockFS := ⟨none⟩

theorem sortDedup_perm (l : List Int) : (sortDedup l).Perm l.dedup :=
  List.perm_insertionSort _ _

theorem sortDedup_mem {a : Int} {l : List Int} : a ∈ sortDedup l ↔ a ∈ l := by
  rw [(sortDedup_perm l).mem_iff, List.mem_dedup]

theorem sortDedup_nodup (l : List Int) : (sortDedup l).Nodup :=
  (sortDedup_perm l).nodup_iff.mpr l.nodup_dedup

theorem sortDedup_sorted_lt (l : List Int) :
    (sortDedup l).Sorted (fun a c => a < c) :=
  (List.sorted_insertionSort _ _).lt_of_le (sortDedup_nodup l)

theorem sortDedup_length {l : List Int} (h : l.Nodup) :
    (sortDedup l).length = l.length := by
  rw [(sortDedup_perm l).length_eq, List.dedup_eq_self.mpr h]

theorem sortDedup_eq_of_mem_iff {l1 l2 : List Int} (h1 : l1.Nodup) (h2 : l2.Nodup)
    (hm : ∀ x, x ∈ l1 ↔ x ∈ l2) : sortDedup l1 = sortDedup l2 := by
  refine List.eq_of_perm_of_sorted ?_ (List.sorted_insertionSort _ _)
    (List.sorted_insertionSort _ _)
  have p1 : (sortDedup l1).Perm l1 := by
    have h := sortDedup_perm l1; rwa [List.dedup_eq_self.mpr h1] at h
  have p2 : (sortDedup l2).Perm l2 := by
    have h := sortDedup_perm l2; rwa [List.dedup_eq_self.mpr h2] at h
  exact p1.trans (((List.perm_ext_iff_of_nodup h1 h2).mpr hm).trans p2.symm)

/- Unfolding lemmas for the six branches of the loop, used both for the
invariant proofs and for evaluating concrete runs. -/

theorem detectLoop_exit {T n step b expected i acc} (h : ¬ expected < b) :
    detectLoop T n step b expected i acc = some acc := by
  rw [detectLoop, if_neg h]

theorem detectLoop_tail {T n step b expected i acc} (h : expected < b) (h2 : ¬ i < n) :
    detectLoop T n step b expected i acc = some (acc ++ [(expected, b)]) := by
  rw [detectLoop, if_pos h, if_neg h2]

theorem detectLoop_oob {T : List Int} {n step b expected i acc}
    (h : expected < b) (h2 : i < n) (hT : T[i]? = none) :
    detectLoop T n step b expected i acc = none := by
  rw [detectLoop, if_pos h, if_pos h2]
  split <;> simp_all

theorem detectLoop_step {T : List Int} {n step b expected i acc}
    (h : expected < b) (h2 : i < n) (hT : T[i]? = some expected) :
    detectLoop T n step b expected i acc =
      detectLoop T n step b (expected + step) (i + 1) acc := by
  rw [detectLoop, if_pos h, if_pos h2]
  split
  · simp_all
  · rename_i t heq
    rw [hT] at heq
    cases heq
    rw [dif_pos rfl]

theorem detectLoop_gap_mid {T : List Int} {n step b expected i acc} (t : Int)
    (h : expected < b) (h2 : i < n) (hT : T[i]? = some t)
    (hne : t ≠ expected) (hlt : t < b) :
    detectLoop T n step b expected i acc =
      detectLoop T n step b t i (acc ++ [(expected, t)]) := by
  rw [detectLoop, if_pos h, if_pos h2]
  split
  · simp_all
  · rename_i t' heq
    rw [hT] at heq
    cases heq
    rw [dif_neg hne, dif_pos hlt]

theorem detectLoop_gap_end {T : List Int} {n step b expected i acc} (t : Int)
    (h : expected < b) (h2 : i < n) (hT : T[i]? = some t)
    (hne : t ≠ expected) (hge : ¬ t < b) :
    detectLoop T n step b expected i acc = some (acc ++ [(expected, b)]) := by
  rw [detectLoop, if_pos h, if_pos h2]
  split
  · simp_all
  · rename_i t' heq
    rw [hT] at heq
    cases heq
    rw [dif_neg hne, dif_neg hge]

/- Arithmetic and list helpers for the loop invariant. -/

theorem aligned_step_le {step x y : Int} (hstep : 0 < step) (hx : step ∣ x)
    (hy : step ∣ y) (hxy : x < y) : x + step ≤ y := by
  have hd : step ∣ y - x := dvd_sub hy hx
  have h := Int.le_of_dvd (by omega) hd
  omega

theorem sortDedup_head_some {S : List Int} (hS : S ≠ []) :
    ∃ t0, (sortDedup S)[0]? = some t0 ∧ t0 ∈ S := by
  have hTne : sortDedup S ≠ [] := by
    intro h
    obtain ⟨s, hs⟩ := List.exists_mem_of_ne_nil S hS
    have hsT : s ∈ sortDedup S := sortDedup_mem.mpr hs
    rw [h] at hsT
    simp at hsT
  have h0T : 0 < (sortDedup S).length := List.length_pos.mpr hTne
  have hsome : ((sortDedup S)[0]?).isSome := by
    simp [List.getElem?_eq_getElem h0T]
  obtain ⟨t0, ht0⟩ := Option.isSome_iff_exists.mp hsome
  refine ⟨t0, ht0, sortDedup_mem.mp ?_⟩
  obtain ⟨h, heq⟩ := List.getElem?_eq_some_iff.mp ht0
  exact heq ▸ List.getElem_mem h

theorem sorted_getElem_lt {T : List Int} (hsort : List.Pairwise (fun a c => a < c) T)
    {i j : Nat} (hi : i < T.length) (hij : i < j) (hj : j < T.length) :
    T[i] < T[j] :=
  List.pairwise_iff_getElem.mp hsort i j hi hj hij

theorem sorted_drop_gt {T : List Int} (hsort : List.Pairwise (fun a c => a < c) T)
    {i : Nat} (hi : i < T.length) : ∀ y ∈ T.drop (i + 1), T[i] < y := by
  intro y hy
  rcases List.mem_iff_getElem.mp hy with ⟨j, hj, rfl⟩
  rw [List.getElem_drop]
  have hj' : i + 1 + j < T.length := by
    have := hj; rw [List.length_drop] at this; omega
  exact sorted_getElem_lt hsort (by omega) (by omega) hj'

theorem mem_take_or_drop {T : List Int} {x : Int} (i : Nat) (hx : x ∈ T) :
    x ∈ T.take i ∨ x ∈ T.drop i := by
  rw [← List.take_append_drop i T] at hx
  exact List.mem_append.mp hx

/-- Invariant characterisation of the detect_gaps loop, for a strictly sorted
input list of step-aligned timestamps, all of them at or after the current
boundary: the loop succeeds, each produced gap is a nonempty aligned
sub-range of [expected, b), the produced gaps are strictly separated, and a
step-aligned point is covered by a produced gap exactly when it lies in
[expected, b) and is absent from the list. -/
theorem detectLoop_spec (T : List Int) (step b : Int) (hstep : 0 < step)
    (hsort : List.Pairwise (fun a c => a < c) T)
    (halign : ∀ t ∈ T, step ∣ t) :
    ∀ (expected : Int) (i : Nat) (acc : List (Int × Int)),
      step ∣ expected →
      (∀ t ∈ T.take i, t < expected) →
      (∀ t ∈ T.drop i, expected ≤ t) →
      ∃ gs, detectLoop T T.length step b expected i acc = some (acc ++ gs) ∧
        (∀ x : Int, step ∣ x →
          ((∃ g ∈ gs, g.1 ≤ x ∧ x < g.2) ↔ (expected ≤ x ∧ x < b ∧ x ∉ T))) ∧
        (∀ g ∈ gs, expected ≤ g.1 ∧ g.1 < g.2 ∧ g.2 ≤ b ∧ step ∣ g.1) ∧
        List.Chain' (fun g h => g.2 < h.1) gs := by
  intro expected i acc
  induction expected, i, acc using detectLoop.induct T T.length step b with
  | case1 e i acc hb hi hT =>
    intro _ _ _
    exact absurd (List.getElem?_eq_none_iff.mp hT) (by omega)
  | case2 i acc hi t hT htb ih =>
    intro hal hlo hhi
    obtain ⟨hiT, hTi⟩ := List.getElem?_eq_some_iff.mp hT
    have htmem : t ∈ T := hTi ▸ List.getElem_mem hiT
    have hal' : step ∣ (t + step) := dvd_add (halign t htmem) dvd_rfl
    have hlo' : ∀ y ∈ T.take (i + 1), y < t + step := by
      intro y hy
      rw [List.take_succ, hT] at hy
      rcases List.mem_append.mp hy with hy' | hy'
      · have := hlo y hy'; omega
      · simp at hy'; omega
    have hhi' : ∀ y ∈ T.drop (i + 1), t + step ≤ y := by
      intro y hy
      have h1 : t < y := by have := sorted_drop_gt hsort hiT y hy; rwa [hTi] at this
      have hymem : y ∈ T := by
        rw [← List.take_append_drop (i + 1) T]
        exact List.mem_append.mpr (Or.inr hy)
      exact aligned_step_le hstep (halign t htmem) (halign y hymem) h1
    obtain ⟨gs, hres, hcov, hshape, hchain⟩ := ih hal' hlo' hhi'
    refine ⟨gs, ?_, ?_, ?_, hchain⟩
    · rw [detectLoop_step htb hi hT]; exact hres
    · intro x hx
      rw [hcov x hx]
      constructor
      · rintro ⟨h1, h2, h3⟩; exact ⟨by omega, h2, h3⟩
      · rintro ⟨h1, h2, h3⟩
        have hxt : x ≠ t := fun he => h3 (he ▸ htmem)
        have hlt : t < x := lt_of_le_of_ne h1 (Ne.symm hxt)
        exact ⟨aligned_step_le hstep (halign t htmem) hx hlt, h2, h3⟩
    · intro g hg
      obtain ⟨h1, h2, h3, h4⟩ := hshape g hg
      exact ⟨by omega, h2, h3, h4⟩
  | case3 e i acc hb hi t hT hne htb ih =>
    intro hal hlo hhi
    obtain ⟨hiT, hTi⟩ := List.getElem?_eq_some_iff.mp hT
    have htmem : t ∈ T := hTi ▸ List.getElem_mem hiT
    have htdrop : t ∈ T.drop i := by
      rw [List.drop_eq_getElem_cons hiT, hTi]; exact List.mem_cons_self _ _
    have het : e < t := lt_of_le_of_ne (hhi t htdrop) (fun h => hne h.symm)
    have hal' : step ∣ t := halign t htmem
    have hlo' : ∀ y ∈ T.take i, y < t := fun y hy => lt_trans (hlo y hy) het
    have hhi' : ∀ y ∈ T.drop i, t ≤ y := by
      intro y hy
      rw [List.drop_eq_getElem_cons hiT, hTi] at hy
      rcases List.mem_cons.mp hy with rfl | hy'
      · exact le_refl _
      · have := sorted_drop_gt hsort hiT y hy'; rw [hTi] at this; omega
    obtain ⟨gs', hres, hcov, hshape, hchain⟩ := ih hal' hlo' hhi'
    refine ⟨(e, t) :: gs', ?_, ?_, ?_, ?_⟩
    · rw [detectLoop_gap_mid t hb hi hT hne htb, hres]
      simp
    · intro x hx
      constructor
      · rintro ⟨g, hg, hg1, hg2⟩
        rcases List.mem_cons.mp hg with rfl | hg'
        · refine ⟨hg1, lt_trans hg2 htb, fun hxT => ?_⟩
          rcases mem_take_or_drop i hxT with h | h
          · have := hlo x h; simp at hg1 hg2; omega
          · have := hhi' x h; simp at hg1 hg2; omega
        · have h := (hcov x hx).mp ⟨g, hg', hg1, hg2⟩
          exact ⟨by omega, h.2.1, h.2.2⟩
      · rintro ⟨h1, h2, h3⟩
        by_cases hxt : x < t
        · exact ⟨(e, t), List.mem_cons_self _ _, h1, hxt⟩
        · push_neg at hxt
          obtain ⟨g, hg, hgx⟩ := (hcov x hx).mpr ⟨hxt, h2, h3⟩
          exact ⟨g, List.mem_cons_of_mem _ hg, hgx⟩
    · intro g hg
      rcases List.mem_cons.mp hg with rfl | hg'
      · exact ⟨le_refl _, het, le_of_lt htb, hal⟩
      · obtain ⟨h1, h2, h3, h4⟩ := hshape g hg'
        exact ⟨by omega, h2, h3, h4⟩
    · rw [List.chain'_cons']
      refine ⟨?_, hchain⟩
      intro y hy
      have hymem : y ∈ gs' := by
        cases gs' with
        | nil => simp at hy
        | cons g0 rest =>
          simp at hy
          rw [hy]; exact List.mem_cons_self _ _
      obtain ⟨h1, h2, h3, h4⟩ := hshape y hymem
      have hcovered : ∃ g ∈ gs', g.1 ≤ y.1 ∧ y.1 < g.2 := ⟨y, hymem, le_refl _, h2⟩
      have hmiss := (hcov y.1 h4).mp hcovered
      have hne' : y.1 ≠ t := fun hh => hmiss.2.2 (hh ▸ htmem)
      exact lt_of_le_of_ne h1 (Ne.symm hne')
  | case4 e i acc hb hi t hT hne hge =>
    intro hal hlo hhi
    obtain ⟨hiT, hTi⟩ := List.getElem?_eq_some_iff.mp hT
    have hdropge : ∀ y ∈ T.drop i, b ≤ y := by
      intro y hy
      rw [List.drop_eq_getElem_cons hiT, hTi] at hy
      rcases List.mem_cons.mp hy with rfl | hy'
      · omega
      · have := sorted_drop_gt hsort hiT y hy'; rw [hTi] at this; omega
    refine ⟨[(e, b)], ?_, ?_, ?_, ?_⟩
    · rw [detectLoop_gap_end t hb hi hT hne hge]
    · intro x hx
      constructor
      · rintro ⟨g, hg, h1, h2⟩
        simp at hg
        rw [hg] at h1 h2; simp at h1 h2
        refine ⟨h1, h2, fun hxT => ?_⟩
        rcases mem_take_or_drop i hxT with h | h
        · have := hlo x h; omega
        · have := hdropge x h; omega
      · rintro ⟨h1, h2, -⟩
        exact ⟨(e, b), by simp, h1, h2⟩
    · intro g hg; simp at hg; rw [hg]
      exact ⟨le_refl _, hb, le_refl _, hal⟩
    · simp
  | case5 e i acc hb hni =>
    intro hal hlo hhi
    have htake : T.take i = T := List.take_of_length_le (by omega)
    refine ⟨[(e, b)], ?_, ?_, ?_, ?_⟩
    · rw [detectLoop_tail hb hni]
    · intro x hx
      constructor
      · rintro ⟨g, hg, h1, h2⟩
        simp at hg
        rw [hg] at h1 h2; simp at h1 h2
        refine ⟨h1, h2, fun hxT => ?_⟩
        have := hlo x (by rw [htake]; exact hxT); omega
      · rintro ⟨h1, h2, -⟩
        exact ⟨(e, b), by simp, h1, h2⟩
    · intro g hg; simp at hg; rw [hg]
      exact ⟨le_refl _, hb, le_refl _, hal⟩
    · simp
  | case6 e i acc hb =>
    intro hal hlo hhi
    refine ⟨[], by rw [detectLoop_exit hb]; simp, ?_, by simp, by simp⟩
    intro x hx
    simp only [List.not_mem_nil, false_and, exists_false, false_iff]
    rintro ⟨h1, h2, -⟩
    exact hb (by omega)

theorem mergeInto_eq {cur : Int × Int} {l : List (Int × Int)}
    (hc : List.Chain' (fun g h => g.2 < h.1) (cur :: l)) : mergeInto cur l = cur :: l := by
  induction l generalizing cur with
  | nil => rfl
  | cons g rest ih =>
    obtain ⟨hrel, hc'⟩ := List.chain'_cons.mp hc
    obtain ⟨g1, g2⟩ := g
    rw [mergeInto, if_neg (by simp at hrel ⊢; omega)]
    rw [ih hc']

theorem mergeGaps_eq {l : List (Int × Int)}
    (hc : List.Chain' (fun g h => g.2 < h.1) l) : mergeGaps l = l := by
  cases l with
  | nil => rfl
  | cons g rest => exact mergeInto_eq hc

theorem mergeInto_head (cur : Int × Int) (l : List (Int × Int)) :
    ∃ e rest, mergeInto cur l = (cur.1, e) :: rest := by
  induction l generalizing cur with
  | nil => exact ⟨cur.2, [], rfl⟩
  | cons g rest ih =>
    obtain ⟨g1, g2⟩ := g
    rw [mergeInto]
    by_cases h : g1 ≤ cur.2
    · rw [if_pos h]
      exact ih (cur.1, max cur.2 g2)
    · rw [if_neg h]
      exact ⟨cur.2, mergeInto (g1, g2) rest, rfl⟩

theorem detectLoop_isSome (T : List Int) (n : Nat) (step b : Int) (hn : n ≤ T.length) :
    ∀ (expected : Int) (i : Nat) (acc : List (Int × Int)),
      (detectLoop T n step b expected i acc).isSome := by
  intro expected i acc
  induction expected, i, acc using detectLoop.induct T n step b with
  | case1 e i acc hb hi hT =>
    have := List.getElem?_eq_none_iff.mp hT
    omega
  | case2 i acc hi t hT htb ih =>
    rw [detectLoop_step htb hi hT]; exact ih
  | case3 e i acc hb hi t hT hne htb ih =>
    rw [detectLoop_gap_mid t hb hi hT hne htb]; exact ih
  | case4 e i acc hb hi t hT hne hge =>
    rw [detectLoop_gap_end t hb hi hT hne hge]; rfl
  | case5 e i acc hb hni =>
    rw [detectLoop_tail hb hni]; rfl
  | case6 e i acc hb =>
    rw [detectLoop_exit hb]; rfl

theorem mem_rangeBoundaries {step a b x : Int} (hstep : 0 < step) :
    x ∈ rangeBoundaries step a b ↔ a ≤ x ∧ x < b ∧ step ∣ (x - a) := by
  rw [rangeBoundaries, if_pos hstep, List.mem_map]
  have hMle : ((b - a + step - 1) / step) * step ≤ b - a + step - 1 :=
    Int.ediv_mul_le _ (by omega)
  constructor
  · rintro ⟨k, hk, rfl⟩
    rw [List.mem_range] at hk
    have hkM : ((k : Int)) < (b - a + step - 1) / step := by
      exact_mod_cast Int.lt_toNat.mp hk
    have hk1 : (k : Int) + 1 ≤ (b - a + step - 1) / step :=
      Int.lt_iff_add_one_le.mp hkM
    have h2 : ((k : Int) + 1) * step ≤ ((b - a + step - 1) / step) * step :=
      mul_le_mul_of_nonneg_right hk1 (by omega)
    have hkst : 0 ≤ (k : Int) * step := mul_nonneg (by omega) (by omega)
    refine ⟨by omega, by nlinarith, ⟨(k : Int), by ring⟩⟩
  · rintro ⟨h1, h2, k, hk⟩
    have hk0 : 0 ≤ k := by
      by_contra hneg
      push_neg at hneg
      have hh : step * k ≤ step * (-1) :=
        mul_le_mul_of_nonneg_left (by omega) (by omega)
      rw [mul_neg_one] at hh
      omega
    have hlt : k + 1 ≤ (b - a + step - 1) / step := by
      rw [Int.le_ediv_iff_mul_le hstep]
      have hh : step * k ≤ b - a - 1 := by omega
      nlinarith
    refine ⟨k.toNat, ?_, ?_⟩
    · rw [List.mem_range]
      exact (Int.toNat_lt_toNat (by omega)).mpr (by omega)
    · have he : ((k.toNat : Int)) = k := by omega
      rw [he, mul_comm k step]; omega

/-- C1 (amended: every member of S must lie at or after range_start; the claim
as frozen fails for sets with members before range_start, see
C1_counterexample): for a duplicate-free list S of interval-aligned
timestamps, positive step, aligned range start a and any range end b,
detect_gaps succeeds and returns the empty list iff every aligned point of
[a,b) is in S; an aligned point lies in [a,b) iff it is covered by a returned
gap or is a member of S inside [a,b); and if S has no member inside [a,b)
the result is the single gap (a,b). -/
theorem C1_gap_correctness (S : List Int) (step a b : Int)
    (hnd : S.Nodup) (hstep : 0 < step) (ha : a % step = 0)
    (halign : ∀ t ∈ S, t % step = 0) (hge : ∀ t ∈ S, a ≤ t) :
    ∃ gaps, detect_gaps S step a b = some gaps ∧
      (gaps = [] ↔ ∀ x : Int, x % step = 0 → a ≤ x → x < b → x ∈ S) ∧
      (∀ x : Int, x % step = 0 →
        (((∃ g ∈ gaps, g.1 ≤ x ∧ x < g.2) ∨ (x ∈ S ∧ a ≤ x ∧ x < b)) ↔
          (a ≤ x ∧ x < b))) ∧
      ((∀ t ∈ S, ¬ (a ≤ t ∧ t < b)) → a < b → gaps = [(a, b)]) := by
  by_cases hab : b ≤ a
  · refine ⟨[], by rw [detect_gaps, if_pos hab], ?_, ?_, ?_⟩
    · constructor
      · intro _ x _ hax hxb; exact absurd hxb (by omega)
      · intro _; rfl
    · intro x hx
      constructor
      · rintro (⟨g, hg, -⟩ | ⟨-, h1, h2⟩)
        · exact absurd hg (List.not_mem_nil g)
        · exact ⟨h1, h2⟩
      · rintro ⟨h1, h2⟩; exact absurd h2 (by omega)
    · intro _ hab2; exact absurd hab2 (by omega)
  · push_neg at hab
    by_cases hS : S = []
    · subst hS
      refine ⟨[(a, b)], ?_, ?_, ?_, ?_⟩
      · rw [detect_gaps, if_neg (by omega), if_pos rfl]
      · constructor
        · intro h; simp at h
        · intro hall
          have := hall a ha (le_refl a) hab
          simp at this
      · intro x hx
        constructor
        · rintro (⟨g, hg, h1, h2⟩ | ⟨hmem, -⟩)
          · simp at hg; rw [hg] at h1 h2; exact ⟨h1, h2⟩
          · simp at hmem
        · rintro ⟨h1, h2⟩
          exact Or.inl ⟨(a, b), by simp, h1, h2⟩
      · intro _ _; rfl
    · have hdva : step ∣ a := Int.dvd_of_emod_eq_zero ha
      have halignT : ∀ t ∈ sortDedup S, step ∣ t := fun t ht =>
        Int.dvd_of_emod_eq_zero (halign t (sortDedup_mem.mp ht))
      have hgeT : ∀ t ∈ (sortDedup S).drop 0, a ≤ t := by
        intro t ht
        rw [List.drop_zero] at ht
        exact hge t (sortDedup_mem.mp ht)
      obtain ⟨gs, hres, hcov, hshape, hchain⟩ :=
        detectLoop_spec (sortDedup S) step b hstep (sortDedup_sorted_lt S) halignT
          a 0 [] hdva (by simp) hgeT
      have hlen : S.length = (sortDedup S).length := (sortDedup_length hnd).symm
      have hres' : detectLoop (sortDedup S) S.length step b a 0 [] = some gs := by
        rw [hlen, hres]; simp
      have hdg : detect_gaps S step a b = some gs := by
        rw [detect_gaps, if_neg (by omega), if_neg hS, hres']
        simp [mergeGaps_eq hchain]
      refine ⟨gs, hdg, ?_, ?_, ?_⟩
      · constructor
        · intro hnil x hx hax hxb
          by_contra hxS
          have hxT : x ∉ sortDedup S := fun h => hxS (sortDedup_mem.mp h)
          have hcv := (hcov x (Int.dvd_of_emod_eq_zero hx)).mpr ⟨hax, hxb, hxT⟩
          rw [hnil] at hcv
          simp at hcv
        · intro hall
          by_contra hne
          obtain ⟨g, gs', rfl⟩ : ∃ g gs', gs = g :: gs' := by
            cases gs with
            | nil => exact absurd rfl hne
            | cons g gs' => exact ⟨g, gs', rfl⟩
          have hgmem : g ∈ g :: gs' := List.mem_cons_self _ _
          obtain ⟨hga, hglt, hgb, hgal⟩ := hshape g hgmem
          have hmi := (hcov g.1 hgal).mp ⟨g, hgmem, le_refl _, hglt⟩
          have hin : g.1 ∈ S := hall g.1 (Int.emod_eq_zero_of_dvd hgal) hmi.1 hmi.2.1
          exact hmi.2.2 (sortDedup_mem.mpr hin)
      · intro x hx
        have hxd := Int.dvd_of_emod_eq_zero hx
        constructor
        · rintro (⟨g, hg, h1, h2⟩ | ⟨-, h1, h2⟩)
          · have h := (hcov x hxd).mp ⟨g, hg, h1, h2⟩
            exact ⟨h.1, h.2.1⟩
          · exact ⟨h1, h2⟩
        · rintro ⟨h1, h2⟩
          by_cases hxS : x ∈ S
          · exact Or.inr ⟨hxS, h1, h2⟩
          · exact Or.inl ((hcov x hxd).mpr
              ⟨h1, h2, fun h => hxS (sortDedup_mem.mp h)⟩)
      · intro hnone hab2
        obtain ⟨t0, ht0, ht0S⟩ := sortDedup_head_some hS
        have ht0b : ¬ t0 < b := by
          intro hlt
          exact hnone _ ht0S ⟨hge _ ht0S, hlt⟩
        have ht0a : t0 ≠ a := by
          intro h
          exact hnone _ ht0S ⟨le_of_eq h.symm, h ▸ hab2⟩
        have h0n : 0 < S.length := List.length_pos.mpr hS
        have hval : detectLoop (sortDedup S) S.length step b a 0 [] =
            some ([] ++ [(a, b)]) :=
          detectLoop_gap_end _ hab2 h0n ht0 ht0a ht0b
        rw [hres'] at hval
        simpa using hval

/-- C1 counterexample: with S = {-5, 0, 5}, step 5 and range [0, 10), every
interval boundary of the range (0 and 5) is in S, yet detect_gaps does not
return the empty list: the member -5 below range_start derails the walk and a
degenerate gap (0, -5) is reported.  This refutes the frozen claim, which
quantifies over every finite set of interval-aligned timestamps. -/
theorem C1_counterexample :
    ([-5, 0, 5] : List Int).Nodup ∧
    (-5 : Int) % 5 = 0 ∧ (0 : Int) % 5 = 0 ∧ (5 : Int) % 5 = 0 ∧
    rangeBoundaries 5 0 10 = [0, 5] ∧
    (0 : Int) ∈ ([-5, 0, 5] : List Int) ∧ (5 : Int) ∈ ([-5, 0, 5] : List Int) ∧
    detect_gaps [-5, 0, 5] 5 0 10 = some [(0, -5)] ∧
    some [(0, -5)] ≠ some ([] : List (Int × Int)) := by
  refine ⟨by decide, by decide, by decide, by decide, by decide, by decide, by decide,
    ?_, by decide⟩
  have e : sortDedup [-5, 0, 5] = [-5, 0, 5] := by decide
  rw [detect_gaps, if_neg (by decide), if_neg (by decide), e]
  rw [detectLoop_gap_mid (-5) (by decide) (by decide) (by decide) (by decide) (by decide)]
  rw [detectLoop_step (by decide) (by decide) (by decide)]
  rw [detectLoop_step (by decide) (by decide) (by decide)]
  rw [detectLoop_step (by decide) (by decide) (by decide)]
  rw [detectLoop_exit (by decide)]
  rfl

/-- C1 witness: the amended theorem applied at S = [0], step 5, range [0, 10). -/
theorem C1_witness :
    ∃ gaps, detect_gaps [0] 5 0 10 = some gaps ∧
      (gaps = [] ↔ ∀ x : Int, x % 5 = 0 → 0 ≤ x → x < 10 → x ∈ ([0] : List Int)) ∧
      (∀ x : Int, x % 5 = 0 →
        (((∃ g ∈ gaps, g.1 ≤ x ∧ x < g.2) ∨ (x ∈ ([0] : List Int) ∧ 0 ≤ x ∧ x < 10)) ↔
          (0 ≤ x ∧ x < 10))) ∧
      ((∀ t ∈ ([0] : List Int), ¬ ((0:Int) ≤ t ∧ t < 10)) → (0:Int) < 10 →
        gaps = [(0, 10)]) :=
  C1_gap_correctness [0] 5 0 10 (by decide) (by decide) (by decide)
    (by decide) (by decide)

/-- Prefix property of the loop: the accumulator is only appended to, so a run
from any accumulator equals the run from the empty accumulator with the
accumulator prepended. -/
theorem detectLoop_accum (T : List Int) (n : Nat) (step b : Int) :
    ∀ (e : Int) (i : Nat) (acc : List (Int × Int)),
      detectLoop T n step b e i acc =
        (detectLoop T n step b e i []).map (fun l => acc ++ l) := by
  intro e0 i0 acc0
  refine detectLoop.induct T n step b
    (motive := fun e i _ => ∀ acc, detectLoop T n step b e i acc =
      (detectLoop T n step b e i []).map (fun l => acc ++ l))
    ?_ ?_ ?_ ?_ ?_ ?_ e0 i0 acc0 acc0
  · intro e i _ h1 h2 hT acc
    rw [detectLoop_oob h1 h2 hT, detectLoop_oob h1 h2 hT]
    rfl
  · intro i _ hi t hT htb ih acc
    rw [detectLoop_step htb hi hT, detectLoop_step htb hi hT, ih acc]
  · intro e i _ hb hi t hT hne htb ih acc
    rw [detectLoop_gap_mid t hb hi hT hne htb,
      detectLoop_gap_mid t hb hi hT hne htb]
    simp only [List.nil_append]
    rw [ih (acc ++ [(e, t)]), ih [(e, t)]]
    cases detectLoop T n step b t i [] with
    | none => rfl
    | some l => simp
  · intro e i _ hb hi t hT hne hge acc
    rw [detectLoop_gap_end t hb hi hT hne hge, detectLoop_gap_end t hb hi hT hne hge]
    rfl
  · intro e i _ hb hni acc
    rw [detectLoop_tail hb hni, detectLoop_tail hb hni]
    rfl
  · intro e i _ hb acc
    rw [detectLoop_exit hb, detectLoop_exit hb]
    simp

/-- C7 counterexample: for the non-aligned range_start 150 with step 300 and
no existing timestamps, the spec's floored walk starts at boundary 0 and
produces the gap (0, 600), but detect_gaps starts at 150 itself and produces
(150, 600): the implementation does not floor range_start. -/
theorem C7_counterexample :
    (150 : Int) % 300 ≠ 0 ∧
    (150 : Int) - 150 % 300 = 0 ∧
    detect_gaps_floored [] 300 150 600 = [(0, 600)] ∧
    detect_gaps [] 300 150 600 = some [(150, 600)] ∧
    some [(150, 600)] ≠ some [(0, 600)] := by
  refine ⟨by decide, by decide, by decide, ?_, by decide⟩
  rw [detect_gaps, if_neg (by decide), if_pos rfl]

/-- C7 (amended: detect_gaps does not floor range_start; it walks boundaries
from range_start itself in step_seconds increments, so the first examined
boundary is range_start): with no existing timestamps the single returned gap
starts exactly at range_start, and whenever range_start is absent from the
(duplicate-free) timestamps the first returned gap begins exactly at
range_start. -/
theorem C7_walk_from_range_start :
    (∀ step a b : Int, a < b → detect_gaps [] step a b = some [(a, b)]) ∧
    (∀ (S : List Int) (step a b : Int), S.Nodup → a < b → a ∉ S →
      ∃ e rest, detect_gaps S step a b = some ((a, e) :: rest)) := by
  constructor
  · intro step a b hab
    rw [detect_gaps, if_neg (by omega), if_pos rfl]
  · intro S step a b hnd hab haS
    by_cases hS : S = []
    · subst hS
      exact ⟨b, [], by rw [detect_gaps, if_neg (by omega), if_pos rfl]⟩
    · obtain ⟨t0, ht0, ht0S⟩ := sortDedup_head_some hS
      have ht0a : t0 ≠ a := fun h => haS (h ▸ ht0S)
      have h0n : 0 < S.length := List.length_pos.mpr hS
      have hlen : S.length = (sortDedup S).length := (sortDedup_length hnd).symm
      by_cases htb : t0 < b
      · have hsome := detectLoop_isSome (sortDedup S) S.length step b
          (le_of_eq hlen) t0 0 []
        obtain ⟨l0, hl0⟩ := Option.isSome_iff_exists.mp hsome
        obtain ⟨e, rest, hmi⟩ := mergeInto_head (a, t0) l0
        refine ⟨e, rest, ?_⟩
        rw [detect_gaps, if_neg (by omega), if_neg hS]
        rw [detectLoop_gap_mid t0 hab h0n ht0 ht0a htb]
        simp only [List.nil_append]
        rw [detectLoop_accum (sortDedup S) S.length step b t0 0 [(a, t0)], hl0]
        simp only [Option.map_map, Option.map_some']
        simp only [mergeGaps, Function.comp, List.singleton_append]
        rw [hmi]
      · refine ⟨b, [], ?_⟩
        rw [detect_gaps, if_neg (by omega), if_neg hS]
        rw [detectLoop_gap_end t0 hab h0n ht0 ht0a htb]
        rfl

/-- C9 counterexample: the lists [0] and [0, 0] contain the same set of
timestamps, but with step 1 over [0, 3) detect_gaps returns a gap list for
the former and raises IndexError (modelled as none) for the latter, because
the length n is taken before the sorted(set(...)) reassignment shrinks the
list.  This refutes the frozen claim, which allows repeated elements. -/
theorem C9_counterexample :
    ([0, 0] : List Int).dedup = [0] ∧
    detect_gaps [0] 1 0 3 = some [(1, 3)] ∧
    detect_gaps [0, 0] 1 0 3 = none ∧
    some [(1, 3)] ≠ (none : Option (List (Int × Int))) := by
  refine ⟨by decide, ?_, ?_, by decide⟩
  · have e : sortDedup [0] = [0] := by decide
    rw [detect_gaps, if_neg (by decide), if_neg (by decide), e]
    rw [detectLoop_step (by decide) (by decide) (by decide)]
    rw [detectLoop_tail (by decide) (by decide)]
    rfl
  · have e : sortDedup [0, 0] = [0] := by decide
    rw [detect_gaps, if_neg (by decide), if_neg (by decide), e]
    rw [detectLoop_step (by decide) (by decide) (by decide)]
    rw [detectLoop_oob (by decide) (by decide) (by decide)]
    rfl

/-- C9 (amended: restricted to duplicate-free inputs; with repeated elements
the function can raise, see C9_counterexample): detect_gaps is
order-independent of its duplicate-free input list and never raises on it,
and it is a pure function, so repeated calls with identical inputs return
identical results. -/
theorem C9_order_independence (l1 l2 : List Int) (s a b : Int)
    (h1 : l1.Nodup) (h2 : l2.Nodup) (hm : ∀ x, x ∈ l1 ↔ x ∈ l2) :
    detect_gaps l1 s a b = detect_gaps l2 s a b ∧
      (detect_gaps l1 s a b).isSome := by
  have hperm : l1.Perm l2 := (List.perm_ext_iff_of_nodup h1 h2).mpr hm
  have hlen : l1.length = l2.length := hperm.length_eq
  have hsd : sortDedup l1 = sortDedup l2 := sortDedup_eq_of_mem_iff h1 h2 hm
  have hsome : ∀ (l : List Int), l.Nodup →
      (detect_gaps l s a b).isSome := by
    intro l hl
    rw [detect_gaps]
    by_cases hba : b ≤ a
    · rw [if_pos hba]; rfl
    · rw [if_neg hba]
      by_cases hnil : l = []
      · rw [if_pos hnil]; rfl
      · rw [if_neg hnil]
        have := detectLoop_isSome (sortDedup l) l.length s b
          (le_of_eq (sortDedup_length hl).symm) a 0 []
        cases hX : detectLoop (sortDedup l) l.length s b a 0 [] with
        | none => rw [hX] at this; simp at this
        | some g => rfl
  refine ⟨?_, hsome l1 h1⟩
  rw [detect_gaps, detect_gaps]
  by_cases hba : b ≤ a
  · rw [if_pos hba, if_pos hba]
  · rw [if_neg hba, if_neg hba]
    by_cases hnil : l1 = []
    · have hnil2 : l2 = [] := by
        subst hnil
        exact hperm.symm.eq_nil
      rw [if_pos hnil, if_pos hnil2]
    · have hnil2 : l2 ≠ [] := by
        intro h
        exact hnil ((h ▸ hperm).eq_nil)
      rw [if_neg hnil, if_neg hnil2, hsd, hlen]

/-- C7 witness: the amended theorem at the unaligned range_start 150. -/
theorem C7_witness :
    ((150 : Int) < 600 ∧ detect_gaps [] 300 150 600 = some [(150, 600)]) ∧
    ∃ e rest, detect_gaps [300] 300 150 600 = some ((150, e) :: rest) :=
  ⟨⟨by decide, C7_walk_from_range_start.1 300 150 600 (by decide)⟩,
    C7_walk_from_range_start.2 [300] 300 150 600 (by decide) (by decide) (by decide)⟩

/-- C9 witness: the amended theorem at two orderings of the set {0, 60}. -/
theorem C9_witness :
    detect_gaps [60, 0] 60 0 120 = detect_gaps [0, 60] 60 0 120 ∧
      (detect_gaps [60, 0] 60 0 120).isSome :=
  C9_order_independence [60, 0] [0, 60] 60 0 120 (by decide) (by decide)
    (by intro x; simp; tauto)

/-- C2 (the code at the failing input): the conflict target named by
upsert_candles matches no unique constraint of the candles table, so the
upsert statement is rejected by SQLite; consequently ingest_range raises
OperationalError on every window whose snapshot-derived candle list is
nonempty, first call and retry alike, instead of idempotently upserting. -/
theorem C2_ingest_range_rejected :
    onConflictTargetAccepted = false ∧
    (∀ st : Store, upsert_candles st [] = .ok (0, st)) ∧
    (∀ st : Store,
      ingest_range (fun _ _ _ => [⟨none, "btc", "5m", 0, 1, 1, 1, 1, some 1⟩])
        st "btc" "5m" 0 300 = .error .operationalError) :=
  ⟨by decide, fun _ => rfl, fun _ => rfl⟩

/-- C4 (the code at the failing input): the upsert path never reaches its
overwrite-on-collision semantics because the statement's conflict target
(source, coin, interval, ts) matches no unique constraint of the table;
meanwhile the raw insert path does fail fast with IntegrityError on a
duplicate (coin, interval, ts) key, and a plain insert leaves the uniqueness
findings empty. -/
theorem C4_uniqueness_evaluation :
    upsert_candles [] [⟨none, "btc", "5m", 0, 1, 1, 1, 1, some 1⟩] =
      .error .operationalError ∧
    insert_raw [⟨"local", "btc", "5m", 0, 1, 1, 1, 1, 1⟩]
      ⟨"remote", "btc", "5m", 0, 2, 2, 2, 2, 2⟩ = .error .integrityError ∧
    insert_raw [] ⟨"local", "btc", "5m", 0, 1, 1, 1, 1, 1⟩ =
      .ok [⟨"local", "btc", "5m", 0, 1, 1, 1, 1, 1⟩] ∧
    duplicateFindings [⟨"local", "btc", "5m", 0, 1, 1, 1, 1, 1⟩] = [] := by
  decide

/-- C10 (the code at the failing input): upsert_candles returns 0 for an
empty rows list, but for any nonempty rows list it raises OperationalError
(rejected conflict target) instead of returning len(values); the claimed
non-zero return for already-stored windows is therefore unreachable. -/
theorem C10_upsert_return :
    (∀ st : Store, upsert_candles st [] = .ok (0, st)) ∧
    (∀ st : Store,
      upsert_candles st [⟨none, "btc", "5m", 0, 1, 1, 1, 1, some 1⟩] =
        .error .operationalError) :=
  ⟨fun _ => rfl, fun _ => rfl⟩

/- Unfolding lemmas for the loop of the completeness-side detect_gaps call
and the crash behaviour it forces on every caller. -/

theorem detectLoopDyn_exit {T n b expected i acc} (h : ¬ expected < b) :
    detectLoopDyn T n b expected i acc = .ok acc := by
  rw [detectLoopDyn, dif_neg h]

theorem detectLoopDyn_ty {T : List Int} {n b expected i acc} {t : Int}
    (h : expected < b) (hi : i < n) (hT : T[i]? = some t) :
    detectLoopDyn T n b expected i acc = .error .typeError := by
  rw [detectLoopDyn, dif_pos h, if_pos hi]
  split <;> simp_all

theorem detectLoopDyn_idx {T : List Int} {n b expected i acc}
    (h : expected < b) (hi : i < n) (hT : T[i]? = none) :
    detectLoopDyn T n b expected i acc = .error .indexError := by
  rw [detectLoopDyn, dif_pos h, if_pos hi]
  split <;> simp_all

theorem detectLoopDyn_tail {T n b expected i acc} (h : expected < b)
    (hi : ¬ i < n) :
    detectLoopDyn T n b expected i acc =
      detectLoopDyn T n b b i (acc ++ [(expected, b)]) := by
  rw [detectLoopDyn, dif_pos h, if_neg hi]

theorem detect_gaps_str_step_empty {s : String} {a b : Int} (hab : a < b) :
    detect_gaps_str_step [] s a b = .ok [(a, b)] := by
  rw [detect_gaps_str_step, if_neg (not_le.mpr hab), if_pos rfl]

theorem detect_gaps_str_step_nonempty {T : List Int} {s : String} {a b : Int}
    (hne : T ≠ []) (hab : a < b) :
    detect_gaps_str_step T s a b = .error .typeError := by
  obtain ⟨t0, ht0, -⟩ := sortDedup_head_some hne
  rw [detect_gaps_str_step, if_neg (not_le.mpr hab), if_neg hne]
  rw [detectLoopDyn_ty hab (List.length_pos.mpr hne) ht0]
  rfl

theorem generate_gap_report_crash (st : Store) (coin interval : String)
    {a b s : Int} (hab : a < b) (hint : get_interval_seconds interval = .ok s) :
    generate_gap_report st coin interval a b =
      .error (if get_existing_candle_times st coin interval a b = []
              then Err.attributeError else Err.typeError) := by
  rw [generate_gap_report, hint]
  dsimp only
  by_cases hE : get_existing_candle_times st coin interval a b = []
  · rw [if_pos hE, hE, detect_gaps_str_step_empty hab]
  · rw [if_neg hE, detect_gaps_str_step_nonempty hE hab]

theorem ensure_no_gaps_crash (st : Store) (coin interval : String)
    {a b s : Int} (hab : a < b) (hint : get_interval_seconds interval = .ok s) :
    ensure_no_gaps st coin interval a b =
      .error (if get_existing_candle_times st coin interval a b = []
              then Err.attributeError else Err.typeError) := by
  rw [ensure_no_gaps, generate_gap_report_crash st coin interval hab hint]

theorem execute_backfill_first_report (ingestFn : IngestFn)
    (coin interval : String) (a b a' s : Int) (mg : Nat) (mc : Int) (st : Store)
    (hab : a < b) (hint : get_interval_seconds interval = .ok s)
    (hstart : a' = if MAX_LOOKBACK_SECONDS < b - a
      then b - MAX_LOOKBACK_SECONDS else a) :
    execute_backfill_instr ingestFn coin interval a b mg mc st =
      (.error (if get_existing_candle_times st coin interval a' b = []
               then Err.attributeError else Err.typeError), 0) := by
  have ha'b : a' < b := by
    rw [hstart]
    split
    · have h30 : (0 : Int) < MAX_LOOKBACK_SECONDS := by
        norm_num [MAX_LOOKBACK_SECONDS]
      omega
    · exact hab
  have hcrash := generate_gap_report_crash st coin interval ha'b hint
  simp only [execute_backfill_instr, ← hstart, hcrash]

/-- C5 (the code at the failing input): completeness.py itself does not even
load — it imports get_existing_candle_times, which gap_detector.py never
defines — and with only that read resolved per the spec, every
ensure_no_gaps call over a range with start_ts < end_ts crashes inside
generate_gap_report: AttributeError when no candle of (coin, interval) is
stored in the range (gap.end read off a plain tuple), TypeError otherwise
(min of an int and a datetime in the walk).  It therefore never raises
DataIncomplete and never returns a report, so the raise-iff-gap_count>0
contract of the claim is unreachable; the check is at least read-only. -/
theorem C5_ensure_no_gaps (st : Store) (coin interval : String) (a b s : Int)
    (hab : a < b) (hint : get_interval_seconds interval = .ok s) :
    completeness_import_ok = false ∧
    ensure_no_gaps st coin interval a b =
      .error (if get_existing_candle_times st coin interval a b = []
              then Err.attributeError else Err.typeError) ∧
    (ensure_no_gaps_session st coin interval a b).2 = st :=
  ⟨rfl, ensure_no_gaps_crash st coin interval hab hint, rfl⟩

/-- C5 witness: the theorem at the empty store over the 5m range [0, 600):
the walk returns the tuple (0, 600) and the detail loop's attribute access
on it is the AttributeError crash. -/
theorem C5_witness :
    completeness_import_ok = false ∧
    ensure_no_gaps [] "btc" "5m" 0 600 =
      .error (if get_existing_candle_times [] "btc" "5m" 0 600 = []
              then Err.attributeError else Err.typeError) ∧
    (ensure_no_gaps_session [] "btc" "5m" 0 600).2 = [] :=
  C5_ensure_no_gaps [] "btc" "5m" 0 600 300 (by decide) rfl

theorem acquire_lock_free (alive : Int → Bool) (payload : LockPayload) :
    acquire_lock alive payload ⟨none⟩ = (true, ⟨some payload⟩) := by
  rw [acquire_lock]

theorem acquire_lock_held (alive : Int → Bool) (payload p : LockPayload) :
    acquire_lock alive payload ⟨some p⟩ =
      (if pid_alive alive p.pid then (false, ⟨some p⟩) else (true, ⟨some payload⟩)) := by
  rw [acquire_lock]
  split
  · rename_i heq
    simp at heq
  · rename_i p' heq
    have hp : p' = p := by simpa using heq.symm
    subst hp
    rw [acquire_lock_free]

/-- C8: acquisition against an existing lock fails when the recorded owner
pid is alive; when the owner process is not alive the stale resource is
removed and the single retry succeeds, installing the new payload (so acquire
against a lock owned by a dead pid succeeds); release always deletes the
resource and a missing resource is not an error. -/
theorem C8_lock_behaviour (alive : Int → Bool) (payload p : LockPayload)
    (fs : LockFS) :
    (fs.lock = some p → pid_alive alive p.pid = true →
      acquire_lock alive payload fs = (false, fs)) ∧
    (fs.lock = some p → alive p.pid = false →
      acquire_lock alive payload fs = (true, ⟨some payload⟩)) ∧
    acquire_lock alive payload ⟨none⟩ = (true, ⟨some payload⟩) ∧
    release_lock fs = ⟨none⟩ := by
  obtain ⟨l⟩ := fs
  refine ⟨?_, ?_, acquire_lock_free alive payload, rfl⟩
  · intro h halive
    simp only at h
    subst h
    rw [acquire_lock_held, if_pos halive]
  · intro h hdead
    simp only at h
    subst h
    have hp : pid_alive alive p.pid = false := by
      rw [pid_alive]
      split
      · rfl
      · exact hdead
    rw [acquire_lock_held, hp]
    simp

/-- C8 witness: the theorem at a concrete aliveness oracle where only pid 7
is alive: acquisition fails against the live owner 7, succeeds against the
dead owner 99, and release deletes the resource. -/
theorem C8_witness :
    acquire_lock (fun q => decide (q = 7)) ⟨8, 1⟩ ⟨some ⟨7, 0⟩⟩ =
      (false, ⟨some ⟨7, 0⟩⟩) ∧
    acquire_lock (fun q => decide (q = 7)) ⟨8, 1⟩ ⟨some ⟨99, 0⟩⟩ =
      (true, ⟨some ⟨8, 1⟩⟩) ∧
    release_lock ⟨some ⟨7, 0⟩⟩ = ⟨none⟩ :=
  ⟨(C8_lock_behaviour (fun q => decide (q = 7)) ⟨8, 1⟩ ⟨7, 0⟩ ⟨some ⟨7, 0⟩⟩).1
      rfl rfl,
    (C8_lock_behaviour (fun q => decide (q = 7)) ⟨8, 1⟩ ⟨99, 0⟩ ⟨some ⟨99, 0⟩⟩).2.1
      rfl rfl,
    (C8_lock_behaviour (fun q => decide (q = 7)) ⟨8, 1⟩ ⟨7, 0⟩ ⟨some ⟨7, 0⟩⟩).2.2.2⟩

theorem sorted_zip_no_descent (l : List Int)
    (hs : List.Pairwise (fun x y => x ≤ y) l) :
    (l.zip (l.drop 1)).filter (fun q => q.2 < q.1) = [] := by
  rw [List.filter_eq_nil_iff]
  intro q hq
  obtain ⟨i, hi, he⟩ := List.mem_iff_getElem.mp hq
  have hlen : i + 1 < l.length := by
    rw [List.length_zip, List.length_drop] at hi
    omega
  rw [List.getElem_zip] at he
  subst he
  simp only [decide_eq_true_eq, not_lt]
  rw [List.getElem_drop]
  exact List.pairwise_iff_getElem.mp hs i (1 + i) (by omega) (by omega) (by omega)

theorem nonMonotonicFindings_eq_nil (st : Store) : nonMonotonicFindings st = [] := by
  rw [nonMonotonicFindings, List.flatMap_eq_nil_iff]
  intro p hp
  dsimp only
  rw [sorted_zip_no_descent _ (List.sorted_insertionSort _ _)]
  rfl

theorem verify_ok_of_no_dups {st : Store} (h : duplicateFindings st = [])
    (strict : Bool) : verify_candle_invariants st strict = .ok ([], []) := by
  rw [verify_candle_invariants]
  simp [h, nonMonotonicFindings_eq_nil]

theorem backfillLoop_no_entry (ingestFn : IngestFn) (coin interval : String)
    (start_ts end_ts : Int) (max_gaps : Nat) (max_candles : Int) (st : Store)
    (current : GapReport) (gf : Nat) (ca : Int) (it att : Nat)
    (gap : GapDetail) (rest : List GapDetail)
    (hg : current.gaps = gap :: rest)
    (h : ¬ (it < max_gaps ∧ ca < max_candles)) :
    backfillLoop ingestFn coin interval start_ts end_ts max_gaps max_candles
      st current gf ca it att = (.ok ⟨st, current, gf, ca, it⟩, att) := by
  rw [backfillLoop]
  split
  · simp_all
  · rw [dif_neg h]

theorem backfillLoop_zero_insert (ingestFn : IngestFn) (coin interval : String)
    (start_ts end_ts : Int) (max_gaps : Nat) (max_candles : Int) (st st' : Store)
    (current : GapReport) (gf : Nat) (ca : Int) (it att : Nat)
    (gap : GapDetail) (rest : List GapDetail)
    (hg : current.gaps = gap :: rest)
    (h1 : it < max_gaps) (h2 : ca < max_candles)
    (hfill : fill_gap_segment ingestFn coin interval gap.start gap.end_ st =
      .ok (0, st')) :
    backfillLoop ingestFn coin interval start_ts end_ts max_gaps max_candles
      st current gf ca it att = (.ok ⟨st', current, gf, ca, it⟩, att + 1) := by
  rw [backfillLoop]
  split
  · simp_all
  · rename_i gap' rest' heq
    rw [hg] at heq
    cases heq
    rw [dif_pos ⟨h1, h2⟩, if_neg (by omega), hfill]
    rfl

theorem backfillLoop_first_error (ingestFn : IngestFn) (coin interval : String)
    (start_ts end_ts : Int) (max_gaps : Nat) (max_candles : Int) (st : Store)
    (current : GapReport) (gf : Nat) (ca : Int) (it att : Nat)
    (gap : GapDetail) (rest : List GapDetail) (e : Err)
    (hg : current.gaps = gap :: rest)
    (h1 : it < max_gaps) (h2 : ca < max_candles)
    (hfill : fill_gap_segment ingestFn coin interval gap.start gap.end_ st =
      .error e) :
    backfillLoop ingestFn coin interval start_ts end_ts max_gaps max_candles
      st current gf ca it att = (.error e, att + 1) := by
  rw [backfillLoop]
  split
  · simp_all
  · rename_i gap' rest' heq
    rw [hg] at heq
    cases heq
    rw [dif_pos ⟨h1, h2⟩, if_neg (by omega), hfill]


/-- C3 (the code at the failing input): whatever the ingestion collaborator —
in particular one that always reports zero inserted rows — execute_backfill
over a range with start_ts < end_ts crashes inside its very first
generate_gap_report call (AttributeError or TypeError, by whether any candle
lies in the clamped range), after zero fill attempts: the loop, the
no-progress guard and the completed=false result promised by the claim are
never reached, and no BackfillResult is returned at all.  a' names the
window-clamped range start the source computes before that first call. -/
theorem C3_zero_progress_termination (ingestFn : IngestFn)
    (coin interval : String) (a b a' s : Int) (mg : Nat) (mc : Int) (st : Store)
    (hab : a < b) (hint : get_interval_seconds interval = .ok s)
    (hstart : a' = if MAX_LOOKBACK_SECONDS < b - a
      then b - MAX_LOOKBACK_SECONDS else a) :
    execute_backfill_instr ingestFn coin interval a b mg mc st =
      (.error (if get_existing_candle_times st coin interval a' b = []
               then Err.attributeError else Err.typeError), 0) :=
  execute_backfill_first_report ingestFn coin interval a b a' s mg mc st hab
    hint hstart

/-- C3 witness: the theorem at a zero-inserting collaborator over the 5m
range [0, 600) against a store holding the candle at time 0; the stored
time makes the walk hit min(int, datetime), a TypeError. -/
theorem C3_witness :
    execute_backfill_instr (fun _ _ _ _ s => .ok (0, s)) "btc" "5m" 0 600 100
        10000 [⟨"local", "btc", "5m", 0, 1, 1, 1, 1, 1⟩] =
      (.error (if get_existing_candle_times
                 [⟨"local", "btc", "5m", 0, 1, 1, 1, 1, 1⟩] "btc" "5m" 0 600 = []
               then Err.attributeError else Err.typeError), 0) :=
  C3_zero_progress_termination (fun _ _ _ _ s => .ok (0, s)) "btc" "5m" 0 600 0
    300 100 10000 [⟨"local", "btc", "5m", 0, 1, 1, 1, 1, 1⟩] (by decide) rfl
    (by decide)

/-- C6 (the code at the failing input): the claimed abort-with-failure-result
on an invariant violation detected after a fill step is unreachable —
completeness.py does not import at all, and execute_backfill crashes inside
its initial generate_gap_report call before any fill attempt: for every
collaborator, even one whose fill would corrupt the (coin, interval, ts)
uniqueness invariant, the fill-attempt count is zero and no BackfillResult
(failure or otherwise) is returned; the in-loop invariant re-verification of
_fill_gap_segment is never consulted. -/
theorem C6_invariant_violation_aborts (ingestFn : IngestFn)
    (coin interval : String) (a b s : Int) (mg : Nat) (mc : Int) (st : Store)
    (hab : a < b) (hint : get_interval_seconds interval = .ok s) :
    completeness_import_ok = false ∧
    (execute_backfill_instr ingestFn coin interval a b mg mc st).2 = 0 ∧
    returnsResult
      (execute_backfill_instr ingestFn coin interval a b mg mc st).1 = false := by
  have h := execute_backfill_first_report ingestFn coin interval a b
    (if MAX_LOOKBACK_SECONDS < b - a then b - MAX_LOOKBACK_SECONDS else a) s
    mg mc st hab hint rfl
  rw [h]
  exact ⟨rfl, rfl, rfl⟩

/-- C6 witness: the theorem at a collaborator that would append a duplicate
of the stored (btc, 5m, 0) candle — the claim scenario — over the 5m range
[0, 600); execute_backfill never invokes it. -/
theorem C6_witness :
    completeness_import_ok = false ∧
    (execute_backfill_instr
        (fun _ _ _ _ s => .ok (1, s ++ [⟨"local", "btc", "5m", 0, 2, 2, 2, 2, 2⟩]))
        "btc" "5m" 0 600 100 10000
        [⟨"local", "btc", "5m", 0, 1, 1, 1, 1, 1⟩]).2 = 0 ∧
    returnsResult
      (execute_backfill_instr
        (fun _ _ _ _ s => .ok (1, s ++ [⟨"local", "btc", "5m", 0, 2, 2, 2, 2, 2⟩]))
        "btc" "5m" 0 600 100 10000
        [⟨"local", "btc", "5m", 0, 1, 1, 1, 1, 1⟩]).1 = false :=
  C6_invariant_violation_aborts
    (fun _ _ _ _ s => .ok (1, s ++ [⟨"local", "btc", "5m", 0, 2, 2, 2, 2, 2⟩]))
    "btc" "5m" 0 600 300 100 10000 [⟨"local", "btc", "5m", 0, 1, 1, 1, 1, 1⟩]
    (by decide) rfl

end CryptoTool

